import Mathlib

/-!
# Verification of the linalg-rs matrix library

Shallow embedding of the dense (`Matrix`) and sparse (`SparseMatrix`)
matrix types of the repository and of the operations named by the
specification: the multiplication dispatcher with its tiny-shape
kernels, the two blocked multiplication kernels, the naive parallel
fallback, the determinant engine, the sparse arithmetic and
multiplication helpers, the constructors and accessors.

Modelling conventions:
* `Vec<T>` is modelled as `List T`; `Vec::swap` as two `List.set`
  operations; an in-range indexing `v[i]` as `List.getD i 0`.
* `HashMap<(usize,usize), T>` is modelled as its lookup function
  `Nat × Nat → Option T` (a hash map is exactly a finitely supported
  key-to-value mapping, and `PartialEq` on hash maps is equality of
  those mappings).
* Rayon parallel reductions (`.sum()` over a range) are modelled as
  the in-order list sum; the claims considered here are about exact
  element types with commutative associative addition, where the
  reduction order is immaterial.
* Fallible constructors return `Except MatrixError`; accessors that
  return Rust `Option` return `Option`.
* `usize` arithmetic is modelled with `Nat` (the sizes involved never
  overflow in the scenarios claimed).
-/

namespace LinalgRs

/-- The closed `Operation` enumeration (src/src/common.rs style enum
used by both storage kinds). -/
inductive Operation where
  | ADD
  | SUB
  | MUL
  | DIV
deriving DecidableEq, Repr

/-- Abstract error kinds of src/src/error.rs (only the constructors the
embedded operations can produce). -/
inductive MatrixError where
  | creation
  | dimensionMismatch
  | multiplicationDimensionMismatch
  | indexOutOfBounds
deriving DecidableEq, Repr

/-- `(0..n).step_by(s)` for `s > 0`: the multiples of `s` below `n`. -/
def stepRange (n s : Nat) : List Nat :=
  (List.range ((n + s - 1) / s)).map (· * s)

/-- Sum of `f` over `0..n`, modelling the rayon parallel reduction
`(0..n).into_par_iter().map(f).sum()`. -/
def rangeSum {T : Type} [CommRing T] (n : Nat) (f : Nat → T) : T :=
  ((List.range n).map f).sum

/-- Sum of `f` over `lo..hi`, modelling
`(lo..hi).into_par_iter().map(f).sum()`. -/
def rangeSum' {T : Type} [CommRing T] (lo hi : Nat) (f : Nat → T) : T :=
  ((List.range' lo (hi - lo)).map f).sum

/-- The dense matrix of src/src/matrix/mod.rs: a flat row-major buffer
plus row and column counts. -/
structure Matrix (T : Type) where
  data : List T
  nrows : Nat
  ncols : Nat
deriving DecidableEq, Repr

namespace Matrix

variable {T : Type} [CommRing T] [DecidableEq T]

/-- `at!(i, j, ncols)` — the row-major flat index macro. -/
def flatIdx (i j ncols : Nat) : Nat := i * ncols + j

/-- `Matrix::shape`. -/
def shape (m : Matrix T) : Nat × Nat := (m.nrows, m.ncols)

/-- `Matrix::size`. -/
def size (m : Matrix T) : Nat := m.nrows * m.ncols

/-- `Matrix::new`: fails with a creation error when the buffer length
does not match the shape. -/
def new (data : List T) (shape : Nat × Nat) : Except MatrixError (Matrix T) :=
  if shape.1 * shape.2 ≠ data.length then
    .error .creation
  else
    .ok { data := data, nrows := shape.1, ncols := shape.2 }

/-- `Matrix::at`: unchecked read `data[i * ncols + j]` (the Rust panic
on an out-of-range flat index is modelled by the default element). -/
def getAt (m : Matrix T) (i j : Nat) : T :=
  m.data.getD (flatIdx i j m.ncols) 0

/-- `Matrix::get`: `None` when the flat index `i * ncols + j` is not
below `nrows * ncols`, otherwise `Some(at(i, j))`. -/
def get (m : Matrix T) (i j : Nat) : Option T :=
  if m.size ≤ flatIdx i j m.ncols then none else some (m.getAt i j)

/-- `Matrix::set`: writes `data[i * ncols + j]` unless the flat index
fails the same bound check, in which case nothing is set. -/
def set (m : Matrix T) (value : T) (idx : Nat × Nat) : Matrix T :=
  if m.size ≤ flatIdx idx.1 idx.2 m.ncols then m
  else { m with data := m.data.set (flatIdx idx.1 idx.2 m.ncols) value }

/-- `Matrix::reshape`: shape metadata changes only when the total size
is preserved; otherwise the matrix is left untouched. -/
def reshape (m : Matrix T) (nrows ncols : Nat) : Matrix T :=
  if nrows * ncols ≠ m.size then m else { m with nrows := nrows, ncols := ncols }

/-- `Vec::swap(a, b)`: both reads happen before the writes. -/
def swapData (l : List T) (a b : Nat) : List T :=
  (l.set a (l.getD b 0)).set b (l.getD a 0)

/-- The in-place `Matrix::transpose` swap loop: for `i in 0..nrows`,
`j in (i+1)..ncols`, swap the flat positions `i*ncols + j` and
`j*nrows + i`. -/
def transposeData (nrows ncols : Nat) (d : List T) : List T :=
  (List.range nrows).foldl (fun l i =>
    (List.range' (i + 1) (ncols - (i + 1))).foldl (fun l2 j =>
      swapData l2 (i * ncols + j) (j * nrows + i)) l) d

/-- `Matrix::transpose`: runs the swap loop, then swaps the row and
column counts. -/
def transpose (m : Matrix T) : Matrix T :=
  { data := transposeData m.nrows m.ncols m.data, nrows := m.ncols, ncols := m.nrows }

/-- `Matrix::transpose_copy`: clone then transpose in place. -/
def transpose_copy (m : Matrix T) : Matrix T := m.transpose

/-- The `Dimension` enum selecting rows or columns. -/
inductive Dimension where
  | Row
  | Col

/-- `Matrix::extend`: on a column-count mismatch (`Row`) or row-count
mismatch (`Col`) nothing changes.  In the `Row` case the other buffer
is appended and `nrows` grows.  In the `Col` case the source computes
an interleaved `new_data` vector but never stores it back into
`self.data`; only `ncols` grows, so the buffer is left unchanged. -/
def extend (m other : Matrix T) (dim : Dimension) : Matrix T :=
  match dim with
  | .Row =>
    if m.ncols ≠ other.ncols then m
    else { m with data := m.data ++ other.data, nrows := m.nrows + other.nrows }
  | .Col =>
    if m.nrows ≠ other.nrows then m
    else { m with ncols := m.ncols + other.ncols }

/-- The naive parallel fallback kernel `naive`: every output cell is
the full dot product over the shared dimension.  The final
`Self::new(data, (M, P)).unwrap()` always succeeds because the buffer
is allocated with length `M * P`. -/
def naive (a b : Matrix T) : Matrix T :=
  let M := a.nrows
  let N := a.ncols
  let P := b.ncols
  let data := (List.range M).foldl (fun d i =>
    (List.range P).foldl (fun d2 j =>
      d2.set (flatIdx i j P) (rangeSum N (fun k => a.getAt i k * b.getAt k j))) d)
    (List.replicate (M * P) (0 : T))
  { data := data, nrows := M, ncols := P }

/-- The general blocked kernel `optimized_blocked_matmul`: blocked
loops over `kk`, `jj`, `ii` with inner bounds clamped by `min`; each
`(i, j)` cell is **assigned** (not accumulated) the partial sum over
the current `kk` block. -/
def optimized_blocked_matmul (a b : Matrix T) (block_size : Nat) : Matrix T :=
  let M := a.nrows
  let N := a.ncols
  let P := b.ncols
  let data := (stepRange N block_size).foldl (fun d kk =>
    (stepRange P block_size).foldl (fun d jj =>
      (stepRange M block_size).foldl (fun d ii =>
        let block_end_i := min (ii + block_size) M
        let block_end_j := min (jj + block_size) P
        let block_end_k := min (kk + block_size) N
        (List.range' ii (block_end_i - ii)).foldl (fun d i =>
          (List.range' jj (block_end_j - jj)).foldl (fun d j =>
            d.set (flatIdx i j P)
              (rangeSum' kk block_end_k (fun k => a.getAt i k * b.getAt k j))) d) d) d) d)
    (List.replicate (M * P) (0 : T))
  { data := data, nrows := M, ncols := P }

/-- The transposed blocked kernel `blocked_matmul` (square operands):
`en = block_size * (n / block_size)`, outer loops step by `en` over
`0..n`, the right operand is pre-transposed once, and each visited
cell `(i, j)` is assigned the partial sum over `kk..kk+block_size`. -/
def blocked_matmul (a b : Matrix T) (block_size : Nat) : Matrix T :=
  let n := a.nrows
  let en := block_size * (n / block_size)
  let t_other := b.transpose_copy
  let data := (stepRange n en).foldl (fun d kk =>
    (stepRange n en).foldl (fun d jj =>
      (List.range n).foldl (fun d i =>
        (List.range' jj block_size).foldl (fun d j =>
          d.set (flatIdx i j n)
            (rangeSum' kk (kk + block_size) (fun k => a.getAt i k * t_other.getAt j k))) d) d) d)
    (List.replicate (n * n) (0 : T))
  { data := data, nrows := n, ncols := n }

/-- Tiny kernel for a (1,2) by (2,1) product. -/
def onetwo_by_twoone (a b : Matrix T) : Matrix T :=
  let x := a.getAt 0 0 * b.getAt 0 0 + a.getAt 0 1 * b.getAt 1 0
  { data := [x], nrows := 1, ncols := 1 }

/-- Tiny kernel for a (2,2) by (2,1) product. -/
def twotwo_by_twoone (a b : Matrix T) : Matrix T :=
  let x := a.getAt 0 0 * b.getAt 0 0 + a.getAt 0 1 * b.getAt 1 0
  let y := a.getAt 1 0 * b.getAt 0 0 + a.getAt 1 1 * b.getAt 1 0
  { data := [x, y], nrows := 2, ncols := 1 }

/-- Tiny kernel for a (1,2) by (2,2) product, with the index accesses
of the source reproduced verbatim (the second component reads
`other.at(1, 0)` where the mathematical product needs `other.at(0, 1)`). -/
def onetwo_by_twotwo (a b : Matrix T) : Matrix T :=
  let x := a.getAt 0 0 * b.getAt 0 0 + a.getAt 0 1 * b.getAt 1 0
  let y := a.getAt 0 0 * b.getAt 1 0 + a.getAt 0 1 * b.getAt 1 1
  { data := [x, y], nrows := 1, ncols := 2 }

/-- Tiny kernel for a (2,2) by (2,2) product, with the index accesses
of the source reproduced verbatim (the first and last components read
transposed positions of the operands). -/
def twotwo_by_twotwo (a b : Matrix T) : Matrix T :=
  let x := a.getAt 0 0 * b.getAt 0 0 + a.getAt 1 0 * b.getAt 1 0
  let y := a.getAt 0 0 * b.getAt 0 1 + a.getAt 0 1 * b.getAt 1 1
  let z := a.getAt 1 0 * b.getAt 0 0 + a.getAt 1 1 * b.getAt 1 0
  let w := a.getAt 1 0 * b.getAt 1 0 + a.getAt 1 1 * b.getAt 1 1
  { data := [x, y, z, w], nrows := 2, ncols := 2 }

/-- `get_range_for_block_size`: an inclusive candidate range chosen
from the operand extents. -/
def get_range_for_block_size (a b : Matrix T) : Nat × Nat :=
  if (a.nrows < 30 ∧ a.ncols < 30) ∨ (b.nrows < 30 ∧ b.ncols < 30) then (2, 10)
  else if (a.nrows < 100 ∧ a.ncols < 100) ∨ (b.nrows < 100 ∧ b.ncols < 100) then (10, 30)
  else (30, 50)

/-- `get_block_size`: the largest candidate in the range that evenly
divides `a.ncols`, `a.nrows` or `b.ncols`.  The source unwraps and
panics when no candidate divides; that case is modelled by 0. -/
def get_block_size (a b : Matrix T) : Nat :=
  let r := get_range_for_block_size a b
  ((List.range' r.1 (r.2 + 1 - r.1)).filter
    (fun bs => a.ncols % bs = 0 ∨ a.nrows % bs = 0 ∨ b.ncols % bs = 0)).getLastD 0

/-- The multiplication dispatcher `matmul_helper`: exact tiny-shape
fast paths first, then the block size is computed and same-shape
operands go to the transposed blocked kernel, all others to the
general blocked kernel. -/
def matmul_helper (a b : Matrix T) : Matrix T :=
  match a.shape, b.shape with
  | (1, 2), (2, 1) => onetwo_by_twoone a b
  | (2, 2), (2, 1) => twotwo_by_twoone a b
  | (1, 2), (2, 2) => onetwo_by_twotwo a b
  | (2, 2), (2, 2) => twotwo_by_twotwo a b
  | _, _ =>
    let bs := get_block_size a b
    if a.shape = b.shape then blocked_matmul a b bs
    else optimized_blocked_matmul a b bs

/-- `Matrix::matmul`: inner-dimension check, then the dispatcher. -/
def matmul (a b : Matrix T) : Except MatrixError (Matrix T) :=
  if a.ncols ≠ b.nrows then .error .dimensionMismatch
  else .ok (matmul_helper a b)

/-- `submatrix`: drop from the flattened `n`-column buffer every
element whose row is `row_to_remove` or whose column is
`col_to_remove`. -/
def submatrix (m : List T) (n row_to_remove col_to_remove : Nat) : List T :=
  m.enum.filterMap (fun p =>
    if p.1 / n ≠ row_to_remove ∧ p.1 % n ≠ col_to_remove then some p.2 else none)

/-- `det_nxn`: recursive first-row Laplace expansion with a running
sign that starts at one and is multiplied by minus one after each
column; a 1-element buffer returns its element, and the (unreachable
from square inputs of positive size) 0 case yields the empty-loop
accumulator 0. -/
def det_nxn : Nat → List T → T
  | 0, _ => 0
  | 1, m => m.getD 0 0
  | n + 2, m =>
    ((List.range (n + 2)).foldl (fun acc col =>
      (acc.1 + acc.2 * m.getD col 0 * det_nxn (n + 1) (submatrix m (n + 2) 0 col),
       acc.2 * (-1))) ((0 : T), (1 : T))).1

/-- `det_2x2`. -/
def det_2x2 (m : Matrix T) : T :=
  m.getAt 0 0 * m.getAt 1 1 - m.getAt 0 1 * m.getAt 1 0

/-- `det_3x3`. -/
def det_3x3 (m : Matrix T) : T :=
  let a := m.getAt 0 0
  let b := m.getAt 0 1
  let c := m.getAt 0 2
  let d := m.getAt 1 0
  let e := m.getAt 1 1
  let f := m.getAt 1 2
  let g := m.getAt 2 0
  let h := m.getAt 2 1
  let i := m.getAt 2 2
  a * (e * i - f * h) - b * (d * i - f * g) + c * (d * h - e * g)

/-- `determinant_helper`: closed forms for 1, 2, 3 rows, recursion
otherwise. -/
def determinant_helper (m : Matrix T) : T :=
  match m.nrows with
  | 1 => m.getAt 0 0
  | 2 => det_2x2 m
  | 3 => det_3x3 m
  | n => det_nxn n m.data

/-- `Matrix::determinant`: `None` for non-square matrices. -/
def determinant (m : Matrix T) : Option T :=
  if m.nrows ≠ m.ncols then none else some (determinant_helper m)

end Matrix

/-- The sparse matrix of src/src/sparse/mod.rs: a coordinate-to-value
hash map plus row and column counts.  The map is modelled by its
lookup function; `PartialEq` on hash maps coincides with equality of
these lookup functions. -/
structure SparseMatrix (T : Type) where
  data : Nat × Nat → Option T
  nrows : Nat
  ncols : Nat

namespace SparseMatrix

variable {T : Type} [CommRing T] [DecidableEq T]

/-- `SparseMatrix::shape`. -/
def shape (s : SparseMatrix T) : Nat × Nat := (s.nrows, s.ncols)

/-- `SparseMatrix::size`. -/
def size (s : SparseMatrix T) : Nat := s.ncols * s.nrows

/-- `SparseMatrix::new`: stores the supplied map and shape as given;
the constructor is total and performs no validation of the
coordinates or values. -/
def new (data : Nat × Nat → Option T) (shape : Nat × Nat) : SparseMatrix T :=
  { data := data, nrows := shape.1, ncols := shape.2 }

/-- `SparseMatrix::init`: an empty map with the given counts. -/
def init (nrows ncols : Nat) : SparseMatrix T :=
  { data := fun _ => none, nrows := nrows, ncols := ncols }

/-- `SparseMatrix::at`: a stored value, or zero when the coordinate is
absent. -/
def getAt (s : SparseMatrix T) (i j : Nat) : T :=
  match s.data (i, j) with
  | none => 0
  | some v => v

/-- `SparseMatrix::get`: `None` when the flat index `i * ncols + j` is
not below `size`; otherwise the stored value, with `Some 0` for an
absent coordinate. -/
def get (s : SparseMatrix T) (i j : Nat) : Option T :=
  if s.size ≤ i * s.ncols + j then none
  else
    match s.data (i, j) with
    | none => some 0
    | some v => some v

/-- `SparseMatrix::set`: inserting a zero value is a no-op, an
out-of-bound flat index is a no-op, and otherwise the entry is
inserted or overwritten. -/
def set (s : SparseMatrix T) (value : T) (idx : Nat × Nat) : SparseMatrix T :=
  if value = 0 then s
  else if s.size ≤ idx.1 * s.ncols + idx.2 then s
  else { s with data := fun p => if p = idx then some value else s.data p }

/-- `SparseMatrix::transpose`: rebuild the map with swapped coordinate
keys and swap the counts. -/
def transpose (s : SparseMatrix T) : SparseMatrix T :=
  { data := fun p => s.data (p.2, p.1), nrows := s.ncols, ncols := s.nrows }

/-- Collecting an association list into a hash map: a later entry for
the same key overwrites an earlier one. -/
def collectAssoc (l : List ((Nat × Nat) × T)) : Nat × Nat → Option T :=
  l.foldl (fun f e => fun p => if p = e.1 then some e.2 else f p) (fun _ => none)

/-- `SparseMatrix::from_slices`: the source errors only when the row
count differs from the column count AND the column count differs from
the value count; otherwise the zipped triples are collected into the
map (zipping truncates to the shortest slice). -/
def from_slices (rows cols : List Nat) (vals : List T) (shape : Nat × Nat) :
    Except MatrixError (SparseMatrix T) :=
  if rows.length ≠ cols.length ∧ cols.length ≠ vals.length then
    .error .dimensionMismatch
  else
    .ok (new (collectAssoc ((rows.zip (cols.zip vals)).map
      (fun e => ((e.1, e.2.1), e.2.2)))) shape)

/-- `sparse_helper`, the allocating binary-operation combinator: after
the shape check, the left operand's entries are copied into a fresh
matrix through `set` (which drops zero values and out-of-bound flat
indices); then each right entry is combined into an existing entry in
place, or inserted through `set` when absent.  All four arms of the
`Operation` match in the source perform `+=`. -/
def sparse_helper (a b : SparseMatrix T) (op : Operation) :
    Except MatrixError (SparseMatrix T) :=
  if a.shape ≠ b.shape then .error .dimensionMismatch
  else
    let copied : Nat × Nat → Option T := fun p =>
      match a.data p with
      | some v =>
        if v = 0 then none
        else if a.size ≤ p.1 * a.ncols + p.2 then none
        else some v
      | none => none
    .ok (new (fun p =>
      match copied p, b.data p with
      | some v, some w =>
        some (match op with
          | .ADD => v + w
          | .SUB => v + w
          | .MUL => v + w
          | .DIV => v + w)
      | some v, none => some v
      | none, some w =>
        if w = 0 then none
        else if a.size ≤ p.1 * a.ncols + p.2 then none
        else some w
      | none, none => none) a.shape)

/-- `SparseMatrix::add`. -/
def add (a b : SparseMatrix T) : Except MatrixError (SparseMatrix T) :=
  sparse_helper a b .ADD

/-- `SparseMatrix::sub`. -/
def sub (a b : SparseMatrix T) : Except MatrixError (SparseMatrix T) :=
  sparse_helper a b .SUB

/-- `SparseMatrix::mul`. -/
def mul (a b : SparseMatrix T) : Except MatrixError (SparseMatrix T) :=
  sparse_helper a b .MUL

/-- `SparseMatrix::div`. -/
def div (a b : SparseMatrix T) : Except MatrixError (SparseMatrix T) :=
  sparse_helper a b .DIV

/-- `matmul_sparse_nn`: every coordinate `(i, j)` of the left
operand's extents with a non-zero left value receives the reduction
`sum_k a[i,j] * b[j,k]`, collected directly into the result map. -/
def matmul_sparse_nn (a b : SparseMatrix T) : SparseMatrix T :=
  let N := a.nrows
  new (fun p =>
    if p.1 < N ∧ p.2 < N ∧ a.getAt p.1 p.2 ≠ 0 then
      some (rangeSum N (fun k => a.getAt p.1 p.2 * b.getAt p.2 k))
    else none) (N, N)

/-- `matmul_sparse_mnnp`: the general variant of the same kernel. -/
def matmul_sparse_mnnp (a b : SparseMatrix T) : SparseMatrix T :=
  let x := a.nrows
  let y := a.ncols
  let z := b.ncols
  new (fun p =>
    if p.1 < x ∧ p.2 < y ∧ a.getAt p.1 p.2 ≠ 0 then
      some (rangeSum z (fun k => a.getAt p.1 p.2 * b.getAt p.2 k))
    else none) (x, z)

/-- `SparseMatrix::matmul_sparse`: inner-dimension check, square
kernel for equal shapes, general kernel otherwise. -/
def matmul_sparse (a b : SparseMatrix T) : Except MatrixError (SparseMatrix T) :=
  if a.ncols ≠ b.nrows then .error .multiplicationDimensionMismatch
  else if a.shape = b.shape then .ok (matmul_sparse_nn a b)
  else .ok (matmul_sparse_mnnp a b)

end SparseMatrix

/-! ## Concrete instances used in the analysis -/

/-- A (1,2) integer matrix `[[1, 1]]`. -/
def exA12 : Matrix ℤ := ⟨[1, 1], 1, 2⟩

/-- A (2,1) integer matrix `[[1], [1]]`. -/
def exB21 : Matrix ℤ := ⟨[1, 1], 2, 1⟩

/-- The 2×2 integer identity matrix. -/
def exEye2 : Matrix ℤ := ⟨[1, 0, 0, 1], 2, 2⟩

/-- The 2×2 integer matrix `[[1, 2], [3, 4]]`. -/
def exA22 : Matrix ℤ := ⟨[1, 2, 3, 4], 2, 2⟩

/-- The 2×2 integer matrix `[[5, 6], [7, 8]]`. -/
def exB22 : Matrix ℤ := ⟨[5, 6, 7, 8], 2, 2⟩

/-- The 4×4 integer matrix `[[1,3,5,9],[1,3,1,7],[4,3,9,7],[5,2,0,9]]`
of the determinant example. -/
def exDet4 : Matrix ℤ := ⟨[1, 3, 5, 9, 1, 3, 1, 7, 4, 3, 9, 7, 5, 2, 0, 9], 4, 4⟩

/-- The 2×3 integer matrix `[[1,2,3],[4,5,6]]`. -/
def exM23 : Matrix ℤ := ⟨[1, 2, 3, 4, 5, 6], 2, 3⟩

/-- The 1×1 integer matrix `[[5]]`. -/
def exM11 : Matrix ℤ := ⟨[5], 1, 1⟩

/-- The 1×1 integer matrix `[[7]]`. -/
def exN11 : Matrix ℤ := ⟨[7], 1, 1⟩

/-- The left operand of the sparse multiplication example:
entries `{(0,1): 2, (1,0): 4, (1,1): 6, (2,2): 8}` over shape (3,3). -/
def exSpA : SparseMatrix ℚ :=
  SparseMatrix.new (fun p =>
    if p = (0, 1) then some 2 else if p = (1, 0) then some 4
    else if p = (1, 1) then some 6 else if p = (2, 2) then some 8 else none) (3, 3)

/-- The right operand of the sparse multiplication example:
entries `{(0,0): 2, (1,0): 4, (1,1): 8, (2,1): 6}` over shape (3,3). -/
def exSpB : SparseMatrix ℚ :=
  SparseMatrix.new (fun p =>
    if p = (0, 0) then some 2 else if p = (1, 0) then some 4
    else if p = (1, 1) then some 8 else if p = (2, 1) then some 6 else none) (3, 3)

/-! ## The permutation performed by the square transpose loop

`sigmaRC n r c` describes the buffer permutation after the transpose
swap loop on an `n`×`n` matrix has fully processed rows `0..r` and,
in the current row `r`, the columns `r+1..r+1+c`: a flat position
decoding to an off-diagonal pair with either coordinate below `r`, or
forming a processed pair with row `r`, has been moved to the mirrored
position. -/

/-- Buffer permutation of the square transpose loop after processing
all rows below `r` and `c` further columns of row `r`. -/
def sigmaRC (n r c k : Nat) : Nat :=
  if k < n * n then
    if k / n = k % n then k
    else if k / n < r ∨ k % n < r ∨ (k / n = r ∧ k % n < r + 1 + c)
        ∨ (k % n = r ∧ k / n < r + 1 + c) then
      (k % n) * n + k / n
    else k
  else k

/-- The completed square-transpose permutation: mirror every in-range
flat position. -/
def sigmaFin (n k : Nat) : Nat :=
  if k < n * n then (k % n) * n + k / n else k

/-! ## Claim C1 -/

/-- C1: refuted on the code.  The general blocked kernel does NOT
return the same matrix as the naive kernel for every compatible pair
and positive block size: at A = [[1, 1]] (1×2), B = [[1], [1]] (2×1)
with block size 1 over ℤ, each `kk` pass overwrites the output cell,
so the kernel returns [1] (the last partial sum) while the naive
kernel returns the true product [2]. -/
theorem C1_general_blocked_ne_naive :
    (Matrix.optimized_blocked_matmul exA12 exB21 1).data = [1]
    ∧ (Matrix.naive exA12 exB21).data = [2]
    ∧ Matrix.optimized_blocked_matmul exA12 exB21 1 ≠ Matrix.naive exA12 exB21 := by
  refine ⟨by decide, by decide, ?_⟩
  intro h
  have : (Matrix.optimized_blocked_matmul exA12 exB21 1).data
      = (Matrix.naive exA12 exB21).data := by rw [h]
  revert this
  decide

/-! ## Claim C2 -/

/-- C2: refuted on the code.  For the square pair A = B = I₂ with
block size 1 (which divides 2), the transposed blocked kernel's outer
loops step by `en = block_size * (n / block_size) = 2`, so only the
block `kk = jj = 0` of width 1 is visited: the result is
[[1, 0], [0, 0]] instead of the naive result I₂. -/
theorem C2_blocked_matmul_ne_naive :
    (2 : Nat) % 1 = 0
    ∧ (Matrix.blocked_matmul exEye2 exEye2 1).data = [1, 0, 0, 0]
    ∧ (Matrix.naive exEye2 exEye2).data = [1, 0, 0, 1]
    ∧ Matrix.blocked_matmul exEye2 exEye2 1 ≠ Matrix.naive exEye2 exEye2 := by
  refine ⟨rfl, by decide, by decide, ?_⟩
  intro h
  have : (Matrix.blocked_matmul exEye2 exEye2 1).data
      = (Matrix.naive exEye2 exEye2).data := by rw [h]
  revert this
  decide

/-! ## Claim C3 -/

/-- C3: refuted on the code.  The dispatcher's (2×2)·(2×2) fast path
does not return the true product: at A = [[1,2],[3,4]],
B = [[5,6],[7,8]] it yields [[26,22],[43,53]] (its first and last
components read transposed operand positions), while the naive kernel
yields the true product [[19,22],[43,50]].  The (1×2)·(2×2) path has
the analogous defect in its second component. -/
theorem C3_tiny_kernels_ne_product :
    (Matrix.matmul_helper exA22 exB22).data = [26, 22, 43, 53]
    ∧ (Matrix.naive exA22 exB22).data = [19, 22, 43, 50]
    ∧ Matrix.matmul_helper exA22 exB22 ≠ Matrix.naive exA22 exB22 := by
  refine ⟨by decide, by decide, ?_⟩
  intro h
  have : (Matrix.matmul_helper exA22 exB22).data = (Matrix.naive exA22 exB22).data := by rw [h]
  revert this
  decide

/-! ## Claim C7 -/

/-- C7: refuted on the code.  `extend` along `Dimension::Col` builds
its interleaved buffer but never stores it back, while still growing
`ncols`; extending the 1×1 matrix [[5]] by the 1×1 matrix [[7]] gives
a matrix whose shape says 1×2 but whose buffer still has length 1, so
`data.length == nrows * ncols` is violated.  (Construction itself does
fail gracefully: `new` with a mismatched buffer returns a creation
error, as the second conjunct records.) -/
theorem C7_extend_col_breaks_invariant :
    ((Matrix.extend exM11 exN11 .Col).nrows = 1
      ∧ (Matrix.extend exM11 exN11 .Col).ncols = 2
      ∧ (Matrix.extend exM11 exN11 .Col).data.length = 1
      ∧ (Matrix.extend exM11 exN11 .Col).data.length
          ≠ (Matrix.extend exM11 exN11 .Col).nrows * (Matrix.extend exM11 exN11 .Col).ncols)
    ∧ Matrix.new [(1 : ℤ), 2, 3] (2, 2) = .error .creation :=
  ⟨by decide, rfl⟩

/-! ## Claim C5 -/

/-- C5: confirmed.  In the allocating sparse binary-operation variant
all four `Operation` arms of `sparse_helper` perform `+=`, so for
every pair of sparse matrices of equal shape the results of `sub`,
`mul` and `div` are exactly the matrix returned by `add`. -/
theorem C5_allocating_ops_behave_as_add {T : Type} [CommRing T] [DecidableEq T]
    (a b : SparseMatrix T) (_h : a.shape = b.shape) :
    a.sub b = a.add b ∧ a.mul b = a.add b ∧ a.div b = a.add b :=
  ⟨rfl, rfl, rfl⟩

/-- Witness for C5 at the two concrete (3,3) sparse matrices of the
multiplication example. -/
theorem C5_allocating_ops_behave_as_add_witness :
    exSpA.sub exSpB = exSpA.add exSpB ∧ exSpA.mul exSpB = exSpA.add exSpB
    ∧ exSpA.div exSpB = exSpA.add exSpB :=
  C5_allocating_ops_behave_as_add exSpA exSpB rfl

/-! ## Claim C6 -/

/-- C6: confirmed.  Multiplying the two (3,3) sparse example matrices
through `matmul_sparse` takes the square kernel and yields 24 at
(0,1), 8 at (1,0), 72 at (1,1), 48 at (2,2), and zero at every other
coordinate. -/
theorem C6_sparse_matmul_example :
    exSpA.matmul_sparse exSpB = .ok (exSpA.matmul_sparse_nn exSpB)
    ∧ (exSpA.matmul_sparse_nn exSpB).getAt 0 1 = 24
    ∧ (exSpA.matmul_sparse_nn exSpB).getAt 1 0 = 8
    ∧ (exSpA.matmul_sparse_nn exSpB).getAt 1 1 = 72
    ∧ (exSpA.matmul_sparse_nn exSpB).getAt 2 2 = 48
    ∧ ∀ i j : Nat, (i, j) ≠ (0, 1) → (i, j) ≠ (1, 0) → (i, j) ≠ (1, 1) → (i, j) ≠ (2, 2) →
        (exSpA.matmul_sparse_nn exSpB).getAt i j = 0 := by
  refine ⟨rfl, ?_, ?_, ?_, ?_, ?_⟩
  · norm_num [SparseMatrix.matmul_sparse_nn, SparseMatrix.getAt, SparseMatrix.new,
      exSpA, exSpB, rangeSum, List.range_succ, Prod.ext_iff]
  · norm_num [SparseMatrix.matmul_sparse_nn, SparseMatrix.getAt, SparseMatrix.new,
      exSpA, exSpB, rangeSum, List.range_succ, Prod.ext_iff]
  · norm_num [SparseMatrix.matmul_sparse_nn, SparseMatrix.getAt, SparseMatrix.new,
      exSpA, exSpB, rangeSum, List.range_succ, Prod.ext_iff]
  · norm_num [SparseMatrix.matmul_sparse_nn, SparseMatrix.getAt, SparseMatrix.new,
      exSpA, exSpB, rangeSum, List.range_succ, Prod.ext_iff]
  · intro i j h1 h2 h3 h4
    by_cases hi : i < 3
    · by_cases hj : j < 3
      · interval_cases i <;> interval_cases j <;>
          first
          | exact absurd rfl h1
          | exact absurd rfl h2
          | exact absurd rfl h3
          | exact absurd rfl h4
          | norm_num [SparseMatrix.matmul_sparse_nn, SparseMatrix.getAt, SparseMatrix.new,
              exSpA, exSpB, rangeSum, List.range_succ, Prod.ext_iff]
      · simp [SparseMatrix.matmul_sparse_nn, SparseMatrix.getAt, SparseMatrix.new,
          exSpA, exSpB, hj]
    · simp [SparseMatrix.matmul_sparse_nn, SparseMatrix.getAt, SparseMatrix.new,
        exSpA, exSpB, hi]

/-- Witness for C6: the zero-elsewhere clause evaluated at the
concrete coordinate (0, 0). -/
theorem C6_sparse_matmul_example_witness :
    (exSpA.matmul_sparse_nn exSpB).getAt 0 0 = 0 :=
  C6_sparse_matmul_example.2.2.2.2.2 0 0 (by decide) (by decide) (by decide) (by decide)

/-! ## Claim C10 -/

/-- C10: confirmed.  `SparseMatrix::new` is total and unvalidated: it
stores the supplied coordinate map and shape unchanged (so entries
outside the declared shape and zero-valued entries are all kept), and
`from_slices` succeeds and collects the zipped triples into the map
whenever the three slices have equal length. -/
theorem C10_sparse_new_unvalidated {T : Type} [CommRing T] [DecidableEq T] :
    (∀ (d : Nat × Nat → Option T) (s : Nat × Nat) (p : Nat × Nat),
       (SparseMatrix.new d s).data p = d p ∧ (SparseMatrix.new d s).shape = s)
    ∧ (∀ (rows cols : List Nat) (vals : List T) (s : Nat × Nat),
        rows.length = cols.length → cols.length = vals.length →
        SparseMatrix.from_slices rows cols vals s =
          .ok (SparseMatrix.new (SparseMatrix.collectAssoc
            ((rows.zip (cols.zip vals)).map (fun e => ((e.1, e.2.1), e.2.2)))) s)) := by
  refine ⟨fun d s p => ⟨rfl, rfl⟩, fun rows cols vals s h1 h2 => ?_⟩
  simp [SparseMatrix.from_slices, h1, h2]

/-- Witness for C10: `from_slices` on equal-length slices containing a
zero value at an out-of-shape coordinate succeeds, and the constructed
matrix stores that entry unchanged. -/
theorem C10_sparse_new_unvalidated_witness :
    SparseMatrix.from_slices [0, 5] [1, 7] [(3 : ℚ), 0] (2, 2) =
      .ok (SparseMatrix.new (SparseMatrix.collectAssoc
        (([0, 5].zip ([1, 7].zip [(3 : ℚ), 0])).map (fun e => ((e.1, e.2.1), e.2.2)))) (2, 2))
    ∧ (SparseMatrix.new (SparseMatrix.collectAssoc
        (([0, 5].zip ([1, 7].zip [(3 : ℚ), 0])).map (fun e => ((e.1, e.2.1), e.2.2)))) (2, 2)).data
        (5, 7) = some 0 :=
  ⟨(C10_sparse_new_unvalidated.2 [0, 5] [1, 7] [(3 : ℚ), 0] (2, 2) rfl rfl), by rfl⟩

/-! ## Claim C8 -/

/-- C8 counterexample: on the dense 2×3 matrix [[1,2,3],[4,5,6]] the
pair (0, 5) has `j = 5 ≥ ncols = 3`, yet `get` returns `some 6` (the
buffer element at flat position 5, i.e. row 1 column 2) instead of the
`none` the claim requires. -/
theorem C8_counterexample :
    exM23.ncols ≤ 5 ∧ exM23.get 0 5 = some 6 ∧ exM23.get 0 5 ≠ none := by
  decide

/-- C8 amended: for both storage kinds, `get(i, j)` returns `None`
exactly when the flattened index `i * ncols + j` reaches
`nrows * ncols` (not whenever `i ≥ nrows` or `j ≥ ncols`); for every
pair with `i < nrows` and `j < ncols` it does return `Some` of the
element at row `i`, column `j`. -/
theorem C8_get_flat_index_bound {T : Type} [CommRing T] [DecidableEq T] :
    (∀ (m : Matrix T) (i j : Nat),
       (m.get i j = none ↔ m.size ≤ i * m.ncols + j)
       ∧ (i < m.nrows → j < m.ncols → m.get i j = some (m.getAt i j)))
    ∧ (∀ (s : SparseMatrix T) (i j : Nat),
       (s.get i j = none ↔ s.size ≤ i * s.ncols + j)
       ∧ (i < s.nrows → j < s.ncols → s.get i j = some (s.getAt i j))) := by
  constructor
  · intro m i j
    constructor
    · unfold Matrix.get Matrix.flatIdx
      split <;> simp_all
    · intro hi hj
      have hlt : i * m.ncols + j < m.size := by
        calc i * m.ncols + j < i * m.ncols + m.ncols := by omega
          _ = (i + 1) * m.ncols := by ring
          _ ≤ m.nrows * m.ncols := Nat.mul_le_mul_right _ hi
      unfold Matrix.get Matrix.flatIdx
      rw [if_neg (by omega)]
  · intro s i j
    constructor
    · unfold SparseMatrix.get
      split
      · simp_all
      · rename_i h
        constructor
        · intro hc
          revert hc
          split <;> simp
        · intro hc
          exact absurd hc h
    · intro hi hj
      have hlt : i * s.ncols + j < s.size := by
        have : i * s.ncols + j < (i + 1) * s.ncols := by
          calc i * s.ncols + j < i * s.ncols + s.ncols := by omega
            _ = (i + 1) * s.ncols := by ring
        calc i * s.ncols + j < (i + 1) * s.ncols := this
          _ ≤ s.nrows * s.ncols := Nat.mul_le_mul_right _ hi
          _ = s.size := by unfold SparseMatrix.size; ring
      unfold SparseMatrix.get SparseMatrix.getAt
      rw [if_neg (by omega)]
      split <;> rfl

/-- Witness for C8 amended: concrete in-bounds reads on the dense and
sparse examples. -/
theorem C8_get_flat_index_bound_witness :
    ((1 : Nat) < exM23.nrows ∧ (2 : Nat) < exM23.ncols
      ∧ exM23.get 1 2 = some (exM23.getAt 1 2))
    ∧ ((0 : Nat) < exSpA.nrows ∧ (1 : Nat) < exSpA.ncols
      ∧ exSpA.get 0 1 = some (exSpA.getAt 0 1)) :=
  ⟨⟨by decide, by decide,
    (C8_get_flat_index_bound.1 exM23 1 2).2 (by decide) (by decide)⟩,
   ⟨by decide, by decide,
    (C8_get_flat_index_bound.2 exSpA 0 1).2 (by decide) (by decide)⟩⟩

/-! ## Claim C4 -/

/-- The running-sign accumulator loop of `det_nxn` computes the
alternating-sign sum. -/
theorem detFold {T : Type} [CommRing T] [DecidableEq T] (a b : Nat → T) :
    ∀ (k : Nat) (d s : T),
      (List.range k).foldl
        (fun acc col => (acc.1 + acc.2 * a col * b col, acc.2 * (-1))) (d, s)
      = (d + ∑ col ∈ Finset.range k, s * (-1) ^ col * a col * b col, s * (-1) ^ k) := by
  intro k
  induction k with
  | zero => intro d s; simp
  | succ k ih =>
    intro d s
    rw [List.range_succ, List.foldl_append, ih]
    simp only [List.foldl_cons, List.foldl_nil, Finset.sum_range_succ, Prod.mk.injEq]
    constructor <;> ring

/-- C4: confirmed.  `determinant` returns `None` exactly for
non-square matrices; on square matrices of sizes 1, 2 and 3 it
returns the closed forms, for `N > 3` it returns the recursive
first-row Laplace expansion with sign `(-1)^col` starting at +1 over
submatrices extracted by filtering the flattened buffer, and on the
4×4 example matrix it returns -376. -/
theorem C4_determinant {T : Type} [CommRing T] [DecidableEq T] :
    (∀ (m : Matrix T), m.determinant = none ↔ m.nrows ≠ m.ncols)
    ∧ (∀ (m : Matrix T), m.nrows = 1 → m.ncols = 1 →
        m.determinant = some (m.getAt 0 0))
    ∧ (∀ (m : Matrix T), m.nrows = 2 → m.ncols = 2 →
        m.determinant = some (m.getAt 0 0 * m.getAt 1 1 - m.getAt 0 1 * m.getAt 1 0))
    ∧ (∀ (m : Matrix T), m.nrows = 3 → m.ncols = 3 →
        m.determinant = some
          (m.getAt 0 0 * (m.getAt 1 1 * m.getAt 2 2 - m.getAt 1 2 * m.getAt 2 1)
            - m.getAt 0 1 * (m.getAt 1 0 * m.getAt 2 2 - m.getAt 1 2 * m.getAt 2 0)
            + m.getAt 0 2 * (m.getAt 1 0 * m.getAt 2 1 - m.getAt 1 1 * m.getAt 2 0)))
    ∧ (∀ (m : Matrix T) (n : Nat), m.nrows = n → m.ncols = n → 3 < n →
        m.determinant = some (∑ col ∈ Finset.range n,
          (-1) ^ col * m.getAt 0 col
            * Matrix.det_nxn (n - 1) (Matrix.submatrix m.data n 0 col)))
    ∧ Matrix.determinant exDet4 = some (-376) := by
  refine ⟨?_, ?_, ?_, ?_, ?_, by decide⟩
  · intro m
    unfold Matrix.determinant
    split <;> simp_all
  · rintro ⟨data, nr, nc⟩ h1 h2
    simp only at h1 h2
    subst h1; subst h2
    rfl
  · rintro ⟨data, nr, nc⟩ h1 h2
    simp only at h1 h2
    subst h1; subst h2
    rfl
  · rintro ⟨data, nr, nc⟩ h1 h2
    simp only at h1 h2
    subst h1; subst h2
    rfl
  · rintro ⟨data, nr, nc⟩ n h1 h2 h3
    simp only at h1 h2
    subst h1; subst h2
    obtain ⟨k, rfl⟩ : ∃ k, nc = k + 4 := ⟨nc - 4, by omega⟩
    have hdet : Matrix.determinant (⟨data, k + 4, k + 4⟩ : Matrix T)
        = some (Matrix.det_nxn (k + 4) data) := by
      unfold Matrix.determinant
      rw [if_neg (by simp)]
      rfl
    rw [hdet]
    have hfold : Matrix.det_nxn (k + 4) data
        = ((List.range (k + 4)).foldl
            (fun (acc : T × T) col =>
              (acc.1 + acc.2 * data.getD col 0
                 * Matrix.det_nxn (k + 3) (Matrix.submatrix data (k + 4) 0 col),
               acc.2 * (-1))) ((0 : T), (1 : T))).1 := rfl
    rw [hfold,
      detFold (fun col => data.getD col 0)
        (fun col => Matrix.det_nxn (k + 3) (Matrix.submatrix data (k + 4) 0 col)) (k + 4) 0 1]
    simp only [zero_add]
    congr 1
    refine Finset.sum_congr rfl (fun col _ => ?_)
    have h31 : k + 4 - 1 = k + 3 := rfl
    simp only [Matrix.getAt, Matrix.flatIdx, Nat.zero_mul, Nat.zero_add, h31]
    ring

/-- Witness for C4: the closed forms evaluated on the concrete 1×1,
2×2 and 4×4 examples. -/
theorem C4_determinant_witness :
    exM11.determinant = some (exM11.getAt 0 0)
    ∧ exA22.determinant
        = some (exA22.getAt 0 0 * exA22.getAt 1 1 - exA22.getAt 0 1 * exA22.getAt 1 0)
    ∧ exDet4.determinant = some (∑ col ∈ Finset.range 4,
        (-1) ^ col * exDet4.getAt 0 col
          * Matrix.det_nxn 3 (Matrix.submatrix exDet4.data 4 0 col)) :=
  ⟨C4_determinant.2.1 exM11 rfl rfl,
   C4_determinant.2.2.1 exA22 rfl rfl,
   C4_determinant.2.2.2.2.1 exDet4 4 rfl rfl (by decide)⟩

/-! ## Claim C9

Helper development: the square transpose swap loop applies pairwise
disjoint swaps, so its effect on the buffer is the flat-position
mirror permutation `sigmaFin`, which is an involution. -/

/-- Row-major encoding stays inside the square buffer. -/
theorem enc_lt {n a b : Nat} (ha : a < n) (hb : b < n) : a * n + b < n * n := by
  calc a * n + b < a * n + n := by omega
    _ = (a + 1) * n := by ring
    _ ≤ n * n := Nat.mul_le_mul_right _ ha

/-- First projection of the row-major decoding. -/
theorem enc_div {n a b : Nat} (hb : b < n) : (a * n + b) / n = a := by
  have h0 : 0 < n := by omega
  rw [Nat.mul_comm a n, Nat.mul_add_div h0, Nat.div_eq_of_lt hb, Nat.add_zero]

/-- Second projection of the row-major decoding. -/
theorem enc_mod {n a b : Nat} (hb : b < n) : (a * n + b) % n = b := by
  rw [Nat.mul_add_mod']
  exact Nat.mod_eq_of_lt hb

/-- Decoding followed by encoding is the identity inside the buffer. -/
theorem enc_dec {n k : Nat} (_hk : k < n * n) : k / n * n + k % n = k :=
  Nat.div_add_mod' k n

/-- The decoded row is in range. -/
theorem dec_div_lt {n k : Nat} (hk : k < n * n) : k / n < n :=
  Nat.div_lt_of_lt_mul (by rwa [Nat.mul_comm] at hk)

/-- The decoded column is in range. -/
theorem dec_mod_lt {n k : Nat} (hk : k < n * n) : k % n < n := by
  have h0 : 0 < n := by
    rcases Nat.eq_zero_or_pos n with h | h
    · subst h; omega
    · exact h
  exact Nat.mod_lt _ h0

/-- Row-major encoding is injective on in-range pairs. -/
theorem enc_inj {n a b a' b' : Nat} (hb : b < n) (hb' : b' < n)
    (h : a * n + b = a' * n + b') : a = a' ∧ b = b' := by
  constructor
  · rw [← enc_div (a := a) hb, h, enc_div hb']
  · rw [← enc_mod (a := a) hb, h, enc_mod hb']

/-- The processed-pair condition is empty before any row is
processed. -/
theorem cond_zero_false {a b : Nat} (hd : a ≠ b) :
    ¬(a < 0 ∨ b < 0 ∨ (a = 0 ∧ b < 0 + 1 + 0) ∨ (b = 0 ∧ a < 0 + 1 + 0)) := by
  omega

/-- The processed-pair condition grows by exactly the freshly swapped
pair when one more column is processed. -/
theorem cond_step_iff {r c a b : Nat} (_hd : a ≠ b)
    (hne1 : ¬(a = r ∧ b = r + 1 + c)) (hne2 : ¬(b = r ∧ a = r + 1 + c)) :
    (a < r ∨ b < r ∨ (a = r ∧ b < r + 1 + c) ∨ (b = r ∧ a < r + 1 + c))
    ↔ (a < r ∨ b < r ∨ (a = r ∧ b < r + 1 + (c + 1)) ∨ (b = r ∧ a < r + 1 + (c + 1))) := by
  omega

/-- Finishing row `r` covers the same pairs as starting row `r + 1`. -/
theorem cond_row_end_iff {n r a b : Nat} (hr : r < n) (ha : a < n) (hb : b < n) (hd : a ≠ b) :
    (a < r ∨ b < r ∨ (a = r ∧ b < r + 1 + (n - (r + 1))) ∨ (b = r ∧ a < r + 1 + (n - (r + 1))))
    ↔ (a < r + 1 ∨ b < r + 1 ∨ (a = r + 1 ∧ b < r + 1 + 1 + 0)
        ∨ (b = r + 1 ∧ a < r + 1 + 1 + 0)) := by
  omega

/-- `swapData` preserves the buffer length. -/
theorem swapData_length {T : Type} [CommRing T] [DecidableEq T]
    (l : List T) (a b : Nat) : (Matrix.swapData l a b).length = l.length := by
  simp [Matrix.swapData]

/-- Reading the first swapped position yields the other element. -/
theorem swapData_getD_left {T : Type} [CommRing T] [DecidableEq T]
    {l : List T} {a b : Nat} (ha : a < l.length) (hb : b < l.length) :
    (Matrix.swapData l a b).getD a 0 = l.getD b 0 := by
  unfold Matrix.swapData
  by_cases hab : a = b
  · subst hab
    rw [List.getD_eq_getElem?_getD, List.getElem?_set_self (by simpa using ha)]
    rfl
  · rw [List.getD_eq_getElem?_getD, List.getElem?_set_ne (fun h => hab h.symm),
      List.getElem?_set_self ha]
    rfl

/-- Reading the second swapped position yields the first element. -/
theorem swapData_getD_right {T : Type} [CommRing T] [DecidableEq T]
    {l : List T} {a b : Nat} (hb : b < l.length) :
    (Matrix.swapData l a b).getD b 0 = l.getD a 0 := by
  unfold Matrix.swapData
  rw [List.getD_eq_getElem?_getD, List.getElem?_set_self (by simpa using hb)]
  rfl

/-- Reading any other position is unaffected by the swap. -/
theorem swapData_getD_other {T : Type} [CommRing T] [DecidableEq T]
    {l : List T} {a b k : Nat} (hka : k ≠ a) (hkb : k ≠ b) :
    (Matrix.swapData l a b).getD k 0 = l.getD k 0 := by
  unfold Matrix.swapData
  rw [List.getD_eq_getElem?_getD, List.getElem?_set_ne (fun h => hkb h.symm),
    List.getElem?_set_ne (fun h => hka h.symm), ← List.getD_eq_getElem?_getD]

/-- Unfolding `sigmaRC` at an in-range position. -/
theorem sigmaRC_eval {n r c k : Nat} (hk : k < n * n) :
    sigmaRC n r c k
      = if k / n = k % n then k
        else if k / n < r ∨ k % n < r ∨ (k / n = r ∧ k % n < r + 1 + c)
            ∨ (k % n = r ∧ k / n < r + 1 + c) then
          k % n * n + k / n
        else k := by
  unfold sigmaRC
  rw [if_pos hk]

/-- `sigmaRC` fixes positions outside the buffer. -/
theorem sigmaRC_ge {n r c k : Nat} (hk : ¬ k < n * n) : sigmaRC n r c k = k := by
  unfold sigmaRC
  rw [if_neg hk]

/-- Before any row is processed the permutation is the identity. -/
theorem sigmaRC_zero (n : Nat) : ∀ k, sigmaRC n 0 0 k = k := by
  intro k
  by_cases hk : k < n * n
  · rw [sigmaRC_eval hk]
    by_cases hd : k / n = k % n
    · rw [if_pos hd]
    · rw [if_neg hd, if_neg (cond_zero_false hd)]
  · exact sigmaRC_ge hk

/-- Finishing row `r` is the same permutation as being about to start
row `r + 1`. -/
theorem sigmaRC_row_end {n r : Nat} (hr : r < n) :
    ∀ k, sigmaRC n r (n - (r + 1)) k = sigmaRC n (r + 1) 0 k := by
  intro k
  by_cases hk : k < n * n
  · have ha : k / n < n := dec_div_lt hk
    have hb : k % n < n := dec_mod_lt hk
    rw [sigmaRC_eval hk, sigmaRC_eval hk]
    by_cases hd : k / n = k % n
    · rw [if_pos hd, if_pos hd]
    · rw [if_neg hd, if_neg hd, if_congr (cond_row_end_iff hr ha hb hd) rfl rfl]
  · rw [sigmaRC_ge hk, sigmaRC_ge hk]

/-- After all rows the permutation is the full mirror. -/
theorem sigmaRC_final (n : Nat) : ∀ k, sigmaRC n n 0 k = sigmaFin n k := by
  intro k
  by_cases hk : k < n * n
  · have ha : k / n < n := dec_div_lt hk
    rw [sigmaRC_eval hk]
    unfold sigmaFin
    rw [if_pos hk]
    by_cases hd : k / n = k % n
    · rw [if_pos hd, ← hd]
      conv_lhs => rw [← enc_dec hk]
      rw [hd]
    · rw [if_neg hd, if_pos (Or.inl ha)]
  · rw [sigmaRC_ge hk]
    unfold sigmaFin
    rw [if_neg hk]

/-- The mirror stays inside the buffer. -/
theorem sigmaFin_lt {n k : Nat} (hk : k < n * n) : sigmaFin n k < n * n := by
  unfold sigmaFin
  rw [if_pos hk]
  exact enc_lt (dec_mod_lt hk) (dec_div_lt hk)

/-- The mirror permutation is an involution. -/
theorem sigmaFin_invol (n : Nat) : ∀ k, sigmaFin n (sigmaFin n k) = k := by
  intro k
  by_cases hk : k < n * n
  · have h1 : sigmaFin n k = k % n * n + k / n := by
      unfold sigmaFin
      rw [if_pos hk]
    rw [h1]
    unfold sigmaFin
    rw [if_pos (h1 ▸ sigmaFin_lt hk), enc_div (dec_div_lt hk), enc_mod (dec_div_lt hk)]
    exact enc_dec hk
  · have h1 : sigmaFin n k = k := by
      unfold sigmaFin
      rw [if_neg hk]
    rw [h1, h1]

/-- Invariant of the inner swap loop: after the current row `r` has
processed `c` columns, the buffer is the start-of-row buffer permuted
by `sigmaRC n r c`. -/
theorem inner_invariant {T : Type} [CommRing T] [DecidableEq T] (n r : Nat) (d : List T) :
    ∀ (c : Nat), r + 1 + c ≤ n →
      ∀ (l : List T), l.length = n * n →
        (∀ k, l.getD k 0 = d.getD (sigmaRC n r 0 k) 0) →
        ((List.range' (r + 1) c).foldl
            (fun l2 j => Matrix.swapData l2 (r * n + j) (j * n + r)) l).length = n * n
        ∧ ∀ k, ((List.range' (r + 1) c).foldl
            (fun l2 j => Matrix.swapData l2 (r * n + j) (j * n + r)) l).getD k 0
          = d.getD (sigmaRC n r c k) 0 := by
  intro c
  induction c with
  | zero =>
    intro _ l hl hbase
    exact ⟨hl, hbase⟩
  | succ c ih =>
    intro hc l hl hbase
    rw [List.range'_1_concat, List.foldl_append]
    obtain ⟨plen, pget⟩ := ih (by omega) l hl hbase
    set prev := (List.range' (r + 1) c).foldl
      (fun l2 j => Matrix.swapData l2 (r * n + j) (j * n + r)) l with hprev
    simp only [List.foldl_cons, List.foldl_nil]
    have hr : r < n := by omega
    have hj0 : r + 1 + c < n := by omega
    have hp1 : r * n + (r + 1 + c) < n * n := enc_lt hr hj0
    have hp2 : (r + 1 + c) * n + r < n * n := enc_lt hj0 hr
    have hp12 : r * n + (r + 1 + c) ≠ (r + 1 + c) * n + r := by
      intro h
      have := (enc_inj hj0 hr h).1
      omega
    constructor
    · rw [swapData_length, plen]
    · intro k
      by_cases hk1 : k = r * n + (r + 1 + c)
      · subst hk1
        rw [swapData_getD_left (by omega) (by omega), pget]
        have h2fix : sigmaRC n r c ((r + 1 + c) * n + r) = (r + 1 + c) * n + r := by
          rw [sigmaRC_eval hp2, enc_div hr, enc_mod hr, if_neg (by omega), if_neg (by omega)]
        have h1move : sigmaRC n r (c + 1) (r * n + (r + 1 + c)) = (r + 1 + c) * n + r := by
          rw [sigmaRC_eval hp1, enc_div hj0, enc_mod hj0, if_neg (by omega), if_pos (by omega)]
        rw [h2fix, h1move]
      · by_cases hk2 : k = (r + 1 + c) * n + r
        · subst hk2
          rw [swapData_getD_right (by omega), pget]
          have h1fix : sigmaRC n r c (r * n + (r + 1 + c)) = r * n + (r + 1 + c) := by
            rw [sigmaRC_eval hp1, enc_div hj0, enc_mod hj0, if_neg (by omega), if_neg (by omega)]
          have h2move : sigmaRC n r (c + 1) ((r + 1 + c) * n + r) = r * n + (r + 1 + c) := by
            rw [sigmaRC_eval hp2, enc_div hr, enc_mod hr, if_neg (by omega), if_pos (by omega)]
          rw [h1fix, h2move]
        · rw [swapData_getD_other hk1 hk2, pget]
          by_cases hk : k < n * n
          · have hne1 : ¬(k / n = r ∧ k % n = r + 1 + c) := by
              rintro ⟨e1, e2⟩
              apply hk1
              rw [← enc_dec hk, e1, e2]
            have hne2 : ¬(k % n = r ∧ k / n = r + 1 + c) := by
              rintro ⟨e1, e2⟩
              apply hk2
              rw [← enc_dec hk, e1, e2]
            rw [sigmaRC_eval hk, sigmaRC_eval hk]
            by_cases hd : k / n = k % n
            · rw [if_pos hd, if_pos hd]
            · rw [if_neg hd, if_neg hd, if_congr (cond_step_iff hd hne1 hne2) rfl rfl]
          · rw [sigmaRC_ge hk, sigmaRC_ge hk]

/-- Invariant of the outer row loop of the square transpose. -/
theorem outer_invariant {T : Type} [CommRing T] [DecidableEq T]
    (n : Nat) (d : List T) (hd : d.length = n * n) :
    ∀ r, r ≤ n →
      ((List.range r).foldl (fun l i =>
          (List.range' (i + 1) (n - (i + 1))).foldl
            (fun l2 j => Matrix.swapData l2 (i * n + j) (j * n + i)) l) d).length = n * n
      ∧ ∀ k, ((List.range r).foldl (fun l i =>
          (List.range' (i + 1) (n - (i + 1))).foldl
            (fun l2 j => Matrix.swapData l2 (i * n + j) (j * n + i)) l) d).getD k 0
        = d.getD (sigmaRC n r 0 k) 0 := by
  intro r
  induction r with
  | zero =>
    intro _
    refine ⟨by simpa using hd, fun k => ?_⟩
    rw [sigmaRC_zero]
    simp
  | succ r ih =>
    intro hr1
    rw [List.range_succ, List.foldl_append]
    obtain ⟨plen, pget⟩ := ih (by omega)
    simp only [List.foldl_cons, List.foldl_nil]
    obtain ⟨qlen, qget⟩ := inner_invariant n r d (n - (r + 1)) (by omega) _ plen pget
    refine ⟨qlen, fun k => ?_⟩
    rw [qget, sigmaRC_row_end (by omega)]

/-- The square transpose loop permutes the buffer by the mirror. -/
theorem transposeData_square {T : Type} [CommRing T] [DecidableEq T]
    (n : Nat) (d : List T) (hd : d.length = n * n) :
    (Matrix.transposeData n n d).length = n * n
    ∧ ∀ k, (Matrix.transposeData n n d).getD k 0 = d.getD (sigmaFin n k) 0 := by
  obtain ⟨hlen, hget⟩ := outer_invariant n d hd n le_rfl
  unfold Matrix.transposeData
  refine ⟨hlen, fun k => ?_⟩
  rw [hget, sigmaRC_final]

/-- C9 counterexample: on the dense 2×3 matrix [[1,2,3],[4,5,6]] the
double transpose returns the buffer [1,4,5,3,2,6], not the original
[1,2,3,4,5,6], refuting the claim for non-square dense matrices. -/
theorem C9_counterexample :
    (Matrix.transpose (Matrix.transpose exM23)).data = [1, 4, 5, 3, 2, 6]
    ∧ Matrix.transpose (Matrix.transpose exM23) ≠ exM23 := by
  refine ⟨by decide, fun h => ?_⟩
  have hdata : (Matrix.transpose (Matrix.transpose exM23)).data = exM23.data := by rw [h]
  revert hdata
  decide

/-- C9 amended: transposing twice is the identity for every sparse
matrix of any shape, and for every dense matrix that is square (with
the buffer-length invariant); for non-square dense matrices the claim
fails, as the counterexample records. -/
theorem C9_transpose_involution {T : Type} [CommRing T] [DecidableEq T] :
    (∀ (s : SparseMatrix T), s.transpose.transpose = s)
    ∧ (∀ (m : Matrix T), m.nrows = m.ncols → m.data.length = m.nrows * m.ncols →
        m.transpose.transpose = m) := by
  constructor
  · intro s
    rfl
  · rintro ⟨data, nr, nc⟩ h1 h2
    simp only at h1 h2
    subst h1
    simp only [Matrix.transpose]
    obtain ⟨len1, get1⟩ := transposeData_square nr data h2
    obtain ⟨len2, get2⟩ := transposeData_square nr (Matrix.transposeData nr nr data) len1
    have hlen : (Matrix.transposeData nr nr (Matrix.transposeData nr nr data)).length
        = data.length := by rw [len2, h2]
    have hgetD : ∀ k,
        (Matrix.transposeData nr nr (Matrix.transposeData nr nr data)).getD k 0
          = data.getD k 0 := by
      intro k
      rw [get2, get1, sigmaFin_invol]
    congr 1
    refine List.ext_getElem hlen (fun i hi1 hi2 => ?_)
    have := hgetD i
    rwa [List.getD_eq_getElem _ _ hi1, List.getD_eq_getElem _ _ hi2] at this

/-- Witness for C9 amended: the sparse example matrix and a concrete
square dense matrix. -/
theorem C9_transpose_involution_witness :
    exSpA.transpose.transpose = exSpA
    ∧ exA22.transpose.transpose = exA22 :=
  ⟨C9_transpose_involution.1 exSpA,
   C9_transpose_involution.2 exA22 rfl rfl⟩

end LinalgRs
